import Mathlib

/-
Verification of the room session state machine of a multiplayer
compare-the-stat card game backend.  The definitions below are a shallow
embedding of the JavaScript source: the GameRoom class and the socket event
handlers.  JS Maps are modelled as insertion-ordered association lists,
JS Sets as insertion-ordered duplicate-free lists, the undefined result of a
missing object property as Option.none, and a thrown TypeError (dereferencing
null) as an Option.none result of the whole operation.  Randomness (room
codes, card draws) and transport liveness are passed in as parameters.
-/

section AssocMap

variable {α : Type}

/-- Lookup in an insertion-ordered association list (JS Map.get). -/
def mapGet : List (String × α) → String → Option α
  | [], _ => none
  | (k', v) :: rest, k => if k' = k then some v else mapGet rest k

/-- JS Map.set: update in place when the key exists, else append at the end. -/
def mapSet : List (String × α) → String → α → List (String × α)
  | [], k, v => [(k, v)]
  | (k', v') :: rest, k, v =>
    if k' = k then (k, v) :: rest else (k', v') :: mapSet rest k v

/-- JS Map.delete: remove the entry with the given key. -/
def mapDelete : List (String × α) → String → List (String × α)
  | [], _ => []
  | (k', v) :: rest, k =>
    if k' = k then mapDelete rest k else (k', v) :: mapDelete rest k

end AssocMap

/-- JS Set.add: append unless already present. -/
def setAdd (l : List String) (x : String) : List String :=
  if l.contains x then l else l ++ [x]

/-- JS Set.delete: remove the element. -/
def setDelete (l : List String) (x : String) : List String :=
  l.filter (fun y => decide (y ≠ x))

/-- JS String.toLowerCase, mapping each character to lower case.  (The
library String.toLower is implemented with a helper the kernel cannot
evaluate, so the character map is spelled out over the char list.) -/
def strToLower (s : String) : String := ⟨s.data.map Char.toLower⟩

/-- JS Array.indexOf, returning none for -1. -/
def listIndexOf : List String → String → Option Nat
  | [], _ => none
  | a :: rest, x => if a = x then some 0 else (listIndexOf rest x).map (· + 1)

/-- The three named attributes of the nested stats object of a card. -/
structure Stats where
  attack : Nat
  defense : Nat
  speed : Nat
deriving Repr, DecidableEq

/-- A card produced by the external provider (fetchRandomPokemon). -/
structure Card where
  id : Nat
  name : String
  sprite : String
  hp : Nat
  stats : Stats
  ctype : String
deriving Repr, DecidableEq

/-- Dynamic property access pokemon.stats[selectedStat]; none is JS undefined. -/
def statsLookup (s : Stats) (name : String) : Option Nat :=
  if name = "attack" then some s.attack
  else if name = "defense" then some s.defense
  else if name = "speed" then some s.speed
  else none

/-- The stat value read by evaluateRound: hp directly, the rest from stats. -/
def statOf (c : Card) (name : String) : Option Nat :=
  if name = "hp" then some c.hp else statsLookup c.stats name

/-- A roster entry of a GameRoom. -/
structure Player where
  name : String
  score : Nat
  pokemon : Option Card
  isCreator : Bool
deriving Repr, DecidableEq

/-- The settings object stored on a GameRoom. -/
structure RoomSettings where
  roundsToWin : Nat
  maxWinners : Nat
deriving Repr, DecidableEq

/-- An inbound settings object; absent fields are none. -/
structure SettingsUpdate where
  roundsToWin : Option Nat
  maxWinners : Option Nat
deriving Repr, DecidableEq

/-- JS (x || d): the default replaces both an absent and a zero value. -/
def jsOr (x : Option Nat) (d : Nat) : Nat :=
  match x with
  | none => d
  | some 0 => d
  | some n => n

/-- The GameRoom class state. -/
structure GameRoom where
  players : List (String × Player)
  currentRound : Nat
  currentPicker : Option String
  settings : RoomSettings
  winners : List String
  creator : Option String
  pickerCycle : List String
  pickerIndex : Nat
  inTieBreaker : Bool
  tieBreakPlayers : List String
  lastSelectedStat : Option String
  playerNames : List String
deriving Repr, DecidableEq

namespace GameRoom

/-- validateMaxWinners: 1 for rosters of at most two, else clamped. -/
def validateMaxWinners (r : GameRoom) (maxWinners : Nat) : Nat :=
  let playerCount := r.players.length
  if playerCount ≤ 2 then 1
  else min maxWinners (min (playerCount - 1) 3)

/-- The GameRoom constructor. -/
def new (settings : SettingsUpdate) : GameRoom :=
  let r : GameRoom :=
    { players := [], currentRound := 1, currentPicker := none,
      settings := { roundsToWin := 3, maxWinners := 1 }, winners := [],
      creator := none, pickerCycle := [], pickerIndex := 0,
      inTieBreaker := false, tieBreakPlayers := [], lastSelectedStat := none,
      playerNames := [] }
  { r with settings :=
      { roundsToWin := jsOr settings.roundsToWin 3,
        maxWinners := r.validateMaxWinners (jsOr settings.maxWinners 1) } }

/-- addPlayer: insert a fresh roster entry, reserve the lowercased name,
and take the creator pointer when isCreator is set. -/
def addPlayer (r : GameRoom) (playerId playerName : String)
    (isCreator : Bool) : GameRoom :=
  { r with
    players := mapSet r.players playerId
      { name := playerName, score := 0, pokemon := none, isCreator := isCreator },
    playerNames := setAdd r.playerNames (strToLower playerName),
    creator := if isCreator then some playerId else r.creator }

/-- removePlayer: release the name and drop the roster entry; no-op if absent. -/
def removePlayer (r : GameRoom) (playerId : String) : GameRoom :=
  match mapGet r.players playerId with
  | none => r
  | some p =>
    { r with
      playerNames := setDelete r.playerNames (strToLower p.name),
      players := mapDelete r.players playerId }

/-- clearPlayerName: release the name only. -/
def clearPlayerName (r : GameRoom) (playerId : String) : GameRoom :=
  match mapGet r.players playerId with
  | none => r
  | some p => { r with playerNames := setDelete r.playerNames (strToLower p.name) }

/-- clearAllPlayerNames: empty the reservation set. -/
def clearAllPlayerNames (r : GameRoom) : GameRoom :=
  { r with playerNames := [] }

/-- The GameRoom.updateSettings method: re-validates maxWinners, then merges. -/
def updateSettings (r : GameRoom) (settings : SettingsUpdate) : GameRoom :=
  let settings' :=
    match settings.maxWinners with
    | some mw => { settings with maxWinners := some (r.validateMaxWinners mw) }
    | none => settings
  { r with settings :=
      { roundsToWin := settings'.roundsToWin.getD r.settings.roundsToWin,
        maxWinners := settings'.maxWinners.getD r.settings.maxWinners } }

/-- getActivePlayers: roster keys that are not winners, in roster order. -/
def getActivePlayers (r : GameRoom) : List String :=
  (r.players.map Prod.fst).filter (fun id => !(r.winners.contains id))

/-- getNextPicker: round-robin over the active subset. -/
def getNextPicker (r : GameRoom) : Option String :=
  let activePlayers := r.getActivePlayers
  if activePlayers.isEmpty then none
  else
    match r.currentPicker with
    | none => activePlayers.head?
    | some cp =>
      if r.winners.contains cp then activePlayers.head?
      else
        match listIndexOf activePlayers cp with
        | none => activePlayers.head?
        | some currentIndex =>
          activePlayers[(currentIndex + 1) % activePlayers.length]?

/-- transferCreator: both ids must resolve and the requester must be creator. -/
def transferCreator (r : GameRoom) (oldCreatorId newCreatorId : String) :
    Bool × GameRoom :=
  match mapGet r.players oldCreatorId, mapGet r.players newCreatorId with
  | some oldCreator, some newCreator =>
    if r.creator = some oldCreatorId then
      let ps1 := mapSet r.players oldCreatorId { oldCreator with isCreator := false }
      let ps2 := mapSet ps1 newCreatorId { newCreator with isCreator := true }
      (true, { r with players := ps2, creator := some newCreatorId })
    else (false, r)
  | _, _ => (false, r)

/-- The (!this.creator || !this.players.has(this.creator)) test. -/
def creatorMissing (r : GameRoom) : Bool :=
  match r.creator with
  | none => true
  | some c => (mapGet r.players c).isNone

/-- assignNewCreator: promote the first roster member when the creator is gone. -/
def assignNewCreator (r : GameRoom) : Option String × GameRoom :=
  if r.players.isEmpty then (none, r)
  else if r.creatorMissing then
    match r.players.head? with
    | some (nextCreatorId, p) =>
      (some nextCreatorId,
        { r with
          players := mapSet r.players nextCreatorId { p with isCreator := true },
          creator := some nextCreatorId })
    | none => (none, r)
  else (none, r)

/-- The evaluation loop of evaluateRound: find the highest value and its
holders.  none models a thrown TypeError (missing player or null pokemon);
an unrecognized stat reads undefined, which compares false both ways. -/
def evalFold (ps : List (String × Player)) (stat : String) :
    List String → Int → List String → Option (Int × List String)
  | [], highestValue, roundWinners => some (highestValue, roundWinners)
  | playerId :: rest, highestValue, roundWinners =>
    match mapGet ps playerId with
    | none => none
    | some p =>
      match p.pokemon with
      | none => none
      | some c =>
        match statOf c stat with
        | none => evalFold ps stat rest highestValue roundWinners
        | some n =>
          if highestValue < (n : Int) then evalFold ps stat rest (n : Int) [playerId]
          else if (n : Int) = highestValue then
            evalFold ps stat rest highestValue (roundWinners ++ [playerId])
          else evalFold ps stat rest highestValue roundWinners

/-- The object returned by evaluateRound (broadcast projections omitted). -/
structure RoundResult where
  roundWinners : List String
  gameWinners : List String
  winners : List String
  gameEnded : Bool
  stat : String
deriving Repr, DecidableEq

/-- evaluateRound: record the stat, scan the pool, score roundWinners[0]
outside tie-breaker mode, and report the game-end condition. -/
def evaluateRound (r : GameRoom) (selectedStat : String) :
    Option (RoundResult × GameRoom) :=
  let r1 := { r with lastSelectedStat := some selectedStat }
  let pool := if r1.inTieBreaker then r1.tieBreakPlayers else r1.getActivePlayers
  match evalFold r1.players selectedStat pool (-1) [] with
  | none => none
  | some (_, roundWinners) =>
    let r2 :=
      if r1.inTieBreaker then r1
      else
        match roundWinners with
        | [] => r1
        | w0 :: _ =>
          match mapGet r1.players w0 with
          | none => r1
          | some winner =>
            let winner' := { winner with score := winner.score + 1 }
            let r2a := { r1 with players := mapSet r1.players w0 winner' }
            if r2a.settings.roundsToWin ≤ winner'.score then
              if r2a.winners.contains w0 then r2a
              else { r2a with winners := r2a.winners ++ [w0] }
            else r2a
    some ({ roundWinners := roundWinners, gameWinners := r2.winners,
            winners := r2.winners,
            gameEnded := decide (r2.settings.maxWinners ≤ r2.winners.length),
            stat := selectedStat }, r2)

/-- Assign a freshly drawn card to each of the given roster members. -/
def drawCards (ps : List (String × Player)) (ids : List String)
    (draw : String → Card) : List (String × Player) :=
  ps.map (fun e =>
    if ids.contains e.1 then (e.1, { e.2 with pokemon := some (draw e.1) }) else e)

/-- startNewRound with the external card fetch supplied as a function. -/
def startNewRound (r : GameRoom) (draw : String → Card) : GameRoom :=
  if r.inTieBreaker then
    { r with players := drawCards r.players r.tieBreakPlayers draw }
  else
    let r1 := { r with currentPicker := r.getNextPicker }
    let r2 := { r1 with players := drawCards r1.players r1.getActivePlayers draw }
    { r2 with currentRound := r2.currentRound + 1 }

/-- startGame: full reset, then a first round. -/
def startGame (r : GameRoom) (draw : String → Card) : GameRoom :=
  startNewRound
    { r with
      currentRound := 1, winners := [], inTieBreaker := false,
      tieBreakPlayers := [], lastSelectedStat := none,
      players := r.players.map (fun e => (e.1, { e.2 with score := 0, pokemon := none })) }
    draw

end GameRoom

open GameRoom

/-- The updateSettings event handler: merges raw settings into the room
without calling the validating GameRoom.updateSettings method. -/
def updateSettingsEvent (r : GameRoom) (settings : SettingsUpdate) : GameRoom :=
  { r with settings :=
      { roundsToWin := settings.roundsToWin.getD r.settings.roundsToWin,
        maxWinners := settings.maxWinners.getD r.settings.maxWinners } }

/-- The joinRoom event handler restricted to one room.  live lists the
session-ids the transport still reports as connected. -/
def joinRoom (r : GameRoom) (live : List String) (newId playerName : String) :
    GameRoom :=
  match r.players.find? (fun e => strToLower e.2.name == strToLower playerName) with
  | some (existingPlayerId, player) =>
    if live.contains existingPlayerId then r
    else
      let r1 := r.clearPlayerName existingPlayerId
      let r2 := r1.removePlayer existingPlayerId
      let r3 := r2.addPlayer newId playerName player.isCreator
      let r4 := if player.isCreator then { r3 with creator := some newId } else r3
      match mapGet r4.players newId with
      | some newPlayer =>
        { r4 with
          players := mapSet r4.players newId
            { newPlayer with score := player.score, pokemon := player.pokemon } }
      | none => r4
  | none => r.addPlayer newId playerName false

/-- The leaveRoom event handler restricted to one room (registry deletion
of an emptied room is handled at the registry level). -/
def leaveRoom (r : GameRoom) (pid : String) : GameRoom :=
  let wasCreator := ((mapGet r.players pid).map Player.isCreator).getD false
  let r1 := (r.clearPlayerName pid).removePlayer pid
  if r1.players.isEmpty then r1
  else if wasCreator then (r1.assignNewCreator).2 else r1

/-- The kickPlayer event handler restricted to one room. -/
def kickPlayer (r : GameRoom) (requesterId targetId : String) : GameRoom :=
  if r.creator = some requesterId then
    (r.clearPlayerName targetId).removePlayer targetId
  else r

/-- The disconnect handler's effect on the room holding the session. -/
def disconnectEvent (r : GameRoom) (pid : String) : GameRoom :=
  match mapGet r.players pid with
  | none => r
  | some player =>
    let r1 := (r.clearPlayerName pid).removePlayer pid
    if r1.players.isEmpty then r1
    else if player.isCreator then (r1.assignNewCreator).2 else r1

/-- The selectStat event handler: only the current picker is accepted; on a
thrown evaluation only the already-written lastSelectedStat survives. -/
def selectStat (r : GameRoom) (pid stat : String) : GameRoom :=
  if r.currentPicker = some pid then
    match r.evaluateRound stat with
    | some (res, r') => if res.gameEnded then r'.clearAllPlayerNames else r'
    | none => { r with lastSelectedStat := some stat }
  else r

/-- The rematch event handler (including its deferred startNewRound). -/
def rematchEvent (r : GameRoom) (draw : String → Card) : GameRoom :=
  GameRoom.startNewRound
    { r with
      currentRound := 0, winners := [],
      players := r.players.map (fun e => (e.1, { e.2 with score := 0 })) }
    draw

/-- The room registry: code to GameRoom, insertion ordered. -/
def Registry := List (String × GameRoom)
deriving DecidableEq

/-- The createRoom event handler: stores the generated code unconditionally. -/
def createRoom (reg : Registry) (roomCode socketId playerName : String)
    (settings : SettingsUpdate) : Registry :=
  mapSet reg roomCode ((GameRoom.new settings).addPlayer socketId playerName true)

/-- leaveRoom at registry level: an emptied room is deleted. -/
def leaveRoomReg (reg : Registry) (roomCode pid : String) : Registry :=
  match mapGet reg roomCode with
  | none => reg
  | some r =>
    let wasCreator := ((mapGet r.players pid).map Player.isCreator).getD false
    let r1 := (r.clearPlayerName pid).removePlayer pid
    if r1.players.isEmpty then mapDelete reg roomCode
    else if wasCreator then mapSet reg roomCode (r1.assignNewCreator).2
    else mapSet reg roomCode r1

/-- kickPlayer at registry level: no deletion, no creator reassignment. -/
def kickPlayerReg (reg : Registry) (roomCode requesterId targetId : String) :
    Registry :=
  match mapGet reg roomCode with
  | none => reg
  | some r =>
    if r.creator = some requesterId then
      mapSet reg roomCode ((r.clearPlayerName targetId).removePlayer targetId)
    else reg

/-- The room-mutating operations reachable through the event handlers. -/
inductive Op where
  | join (live : List String) (pid name : String)
  | leave (pid : String)
  | kick (requesterId targetId : String)
  | disconnect (pid : String)
  | startGame (draw : String → Card)
  | rematch (draw : String → Card)
  | selectStat (pid stat : String)
  | newRound (draw : String → Card)

/-- Apply one operation to a room. -/
def applyOp (r : GameRoom) : Op → GameRoom
  | .join live pid name => joinRoom r live pid name
  | .leave pid => leaveRoom r pid
  | .kick req target => kickPlayer r req target
  | .disconnect pid => disconnectEvent r pid
  | .startGame draw => GameRoom.startGame r draw
  | .rematch draw => rematchEvent r draw
  | .selectStat pid stat => selectStat r pid stat
  | .newRound draw => GameRoom.startNewRound r draw

/-- Apply a sequence of operations. -/
def applyOps (r : GameRoom) (ops : List Op) : GameRoom :=
  ops.foldl applyOp r

/-- The room state produced by the createRoom handler for the new room. -/
def createdRoom (settings : SettingsUpdate) (socketId playerName : String) :
    GameRoom :=
  (GameRoom.new settings).addPlayer socketId playerName true

/- Association-list and set lemmas used by the claim proofs. -/

section MapLemmas

variable {α : Type}

theorem mapGet_mapSet_self (m : List (String × α)) (k : String) (v : α) :
    mapGet (mapSet m k v) k = some v := by
  induction m with
  | nil => simp [mapSet, mapGet]
  | cons e rest ih =>
    obtain ⟨k', v'⟩ := e
    by_cases h : k' = k
    · simp [mapSet, h, mapGet]
    · simp [mapSet, h, mapGet, ih]

theorem mapGet_mapSet_ne (m : List (String × α)) {k k' : String} (v : α)
    (h : k' ≠ k) : mapGet (mapSet m k v) k' = mapGet m k' := by
  have hk : ¬ k = k' := fun hh => h hh.symm
  induction m with
  | nil => simp [mapSet, mapGet, hk]
  | cons e rest ih =>
    obtain ⟨k0, v0⟩ := e
    by_cases h0 : k0 = k
    · have hk0 : ¬ k0 = k' := by rw [h0]; exact hk
      simp [mapSet, h0, mapGet, hk, hk0]
    · by_cases h1 : k0 = k'
      · simp [mapSet, h0, mapGet, h1, hk, h]
      · simp [mapSet, h0, mapGet, h1, ih]

theorem mapSet_mapSet_same (m : List (String × α)) (k : String) (v v' : α) :
    mapSet (mapSet m k v) k v' = mapSet m k v' := by
  induction m with
  | nil => simp [mapSet]
  | cons e rest ih =>
    obtain ⟨k0, v0⟩ := e
    by_cases h0 : k0 = k
    · simp [mapSet, h0]
    · simp [mapSet, h0, ih]

theorem mapSet_eq_self {m : List (String × α)} {k : String} {v : α}
    (h : mapGet m k = some v) : mapSet m k v = m := by
  induction m with
  | nil => simp [mapGet] at h
  | cons e rest ih =>
    obtain ⟨k0, v0⟩ := e
    by_cases h0 : k0 = k
    · subst h0
      simp [mapGet] at h
      simp [mapSet, h]
    · simp [mapGet, h0] at h
      simp [mapSet, h0, ih h]

theorem mapSet_append_of_get_none {m : List (String × α)} {k : String}
    (v : α) (h : mapGet m k = none) : mapSet m k v = m ++ [(k, v)] := by
  induction m with
  | nil => simp [mapSet]
  | cons e rest ih =>
    obtain ⟨k0, v0⟩ := e
    by_cases h0 : k0 = k
    · simp [mapGet, h0] at h
    · simp [mapGet, h0] at h
      simp [mapSet, h0, ih h]

theorem mapGet_mapDelete_self (m : List (String × α)) (k : String) :
    mapGet (mapDelete m k) k = none := by
  induction m with
  | nil => simp [mapDelete, mapGet]
  | cons e rest ih =>
    obtain ⟨k0, v0⟩ := e
    by_cases h0 : k0 = k
    · simp [mapDelete, h0, ih]
    · simp [mapDelete, h0, mapGet, ih]

theorem mapGet_mapDelete_ne (m : List (String × α)) {k k' : String}
    (h : k' ≠ k) : mapGet (mapDelete m k) k' = mapGet m k' := by
  have hk : ¬ k = k' := fun hh => h hh.symm
  induction m with
  | nil => simp [mapDelete]
  | cons e rest ih =>
    obtain ⟨k0, v0⟩ := e
    by_cases h0 : k0 = k
    · simp [mapDelete, h0, mapGet, hk, ih]
    · by_cases h1 : k0 = k'
      · simp [mapDelete, h0, mapGet, h1, hk, h]
      · simp [mapDelete, h0, mapGet, h1, ih]

theorem mapGet_append_of_none {l1 : List (String × α)} (l2 : List (String × α))
    {k : String} (h : mapGet l1 k = none) :
    mapGet (l1 ++ l2) k = mapGet l2 k := by
  induction l1 with
  | nil => simp
  | cons e rest ih =>
    obtain ⟨k0, v0⟩ := e
    by_cases h0 : k0 = k
    · simp [mapGet, h0] at h
    · simp [mapGet, h0] at h ⊢
      exact ih h

theorem mapGet_of_mem_nodup {m : List (String × α)} {k : String} {v : α}
    (hmem : (k, v) ∈ m) (hnd : (m.map Prod.fst).Nodup) :
    mapGet m k = some v := by
  induction m with
  | nil => simp at hmem
  | cons e rest ih =>
    obtain ⟨k0, v0⟩ := e
    simp only [List.map_cons, List.nodup_cons] at hnd
    rcases List.mem_cons.mp hmem with heq | hmem'
    · obtain ⟨hk, hv⟩ := Prod.mk.injEq .. ▸ heq
      simp [mapGet, hk.symm, hv]
    · have hk0 : k0 ≠ k := by
        intro hk0
        subst hk0
        exact hnd.1 (List.mem_map.mpr ⟨(k0, v), hmem', rfl⟩)
      simp [mapGet, hk0, ih hmem' hnd.2]

theorem mapGet_none_of_not_mem {m : List (String × α)} {k : String}
    (h : k ∉ m.map Prod.fst) : mapGet m k = none := by
  induction m with
  | nil => simp [mapGet]
  | cons e rest ih =>
    obtain ⟨k0, v0⟩ := e
    simp only [List.map_cons, List.mem_cons] at h
    push_neg at h
    have hk0 : ¬ k0 = k := fun hh => h.1 hh.symm
    simp [mapGet, hk0, ih h.2]

theorem mapGet_isSome_of_mem {m : List (String × α)} {k : String}
    (h : k ∈ m.map Prod.fst) : (mapGet m k).isSome := by
  induction m with
  | nil => simp at h
  | cons e rest ih =>
    obtain ⟨k0, v0⟩ := e
    by_cases h0 : k0 = k
    · simp [mapGet, h0]
    · simp only [List.map_cons, List.mem_cons] at h
      rcases h with h | h
      · exact absurd h.symm h0
      · simp [mapGet, h0, ih h]

end MapLemmas

theorem setDelete_count_zero (l : List String) (x : String) :
    (setDelete l x).count x = 0 := by
  refine List.count_eq_zero.mpr ?_
  intro hmem
  have := List.of_mem_filter hmem
  simp at this

theorem setDelete_not_contains (l : List String) (x : String) :
    (setDelete l x).contains x = false := by
  have h0 := setDelete_count_zero l x
  have := List.count_eq_zero.mp h0
  simpa using this

theorem setAdd_count_one {l : List String} {x : String}
    (h : l.count x = 0) : (setAdd l x).count x = 1 := by
  have hnm : x ∉ l := List.count_eq_zero.mp h
  simp [setAdd, hnm, List.count_append, h]

theorem setDelete_setDelete (l : List String) (x : String) :
    setDelete (setDelete l x) x = setDelete l x := by
  simp [setDelete, List.filter_filter]

theorem listIndexOf_eq_none {l : List String} {x : String} (h : x ∉ l) :
    listIndexOf l x = none := by
  induction l with
  | nil => simp [listIndexOf]
  | cons a rest ih =>
    simp only [List.mem_cons] at h
    push_neg at h
    have ha : ¬ a = x := fun hh => h.1 hh.symm
    simp [listIndexOf, ha, ih h.2]

theorem listIndexOf_append_self {l1 : List String} (l2 : List String)
    {x : String} (h : x ∉ l1) :
    listIndexOf (l1 ++ x :: l2) x = some l1.length := by
  induction l1 with
  | nil => simp [listIndexOf]
  | cons a rest ih =>
    simp only [List.mem_cons] at h
    push_neg at h
    have ha : ¬ a = x := fun hh => h.1 hh.symm
    simp [listIndexOf, ha, ih h.2]

/- Specification of the highest-value scan of evaluateRound. -/

/-- The scan of evaluateRound abstracted over precomputed stat values. -/
def foldMax : List (String × Nat) → Int → List String → Int × List String
  | [], highestValue, roundWinners => (highestValue, roundWinners)
  | (pid, n) :: rest, highestValue, roundWinners =>
    if highestValue < (n : Int) then foldMax rest n [pid]
    else if (n : Int) = highestValue then foldMax rest highestValue (roundWinners ++ [pid])
    else foldMax rest highestValue roundWinners

/-- Running maximum of the values, seeded with the accumulator. -/
def listMaxI : List (String × Nat) → Int → Int
  | [], h => h
  | (_, n) :: rest, h => listMaxI rest (max h (n : Int))

/-- The ids holding a given value, in list order. -/
def maxHolders (l : List (String × Nat)) (m : Int) : List String :=
  (l.filter (fun p => decide ((p.2 : Int) = m))).map Prod.fst

theorem listMaxI_ge (l : List (String × Nat)) (h : Int) : h ≤ listMaxI l h := by
  induction l generalizing h with
  | nil => simp [listMaxI]
  | cons e rest ih =>
    obtain ⟨pid, n⟩ := e
    calc h ≤ max h (n : Int) := le_max_left _ _
    _ ≤ listMaxI rest (max h (n : Int)) := ih _
    _ = listMaxI ((pid, n) :: rest) h := rfl

theorem listMaxI_ub (l : List (String × Nat)) (h : Int) :
    ∀ p ∈ l, (p.2 : Int) ≤ listMaxI l h := by
  induction l generalizing h with
  | nil => simp
  | cons e rest ih =>
    obtain ⟨pid, n⟩ := e
    intro p hp
    rcases List.mem_cons.mp hp with hph | hpr
    · rw [hph]
      show (n : Int) ≤ listMaxI rest (max h (n : Int))
      calc (n : Int) ≤ max h (n : Int) := le_max_right _ _
        _ ≤ listMaxI rest (max h (n : Int)) := listMaxI_ge _ _
    · exact ih _ p hpr

theorem listMaxI_attained (l : List (String × Nat)) (h : Int) :
    listMaxI l h = h ∨ ∃ p ∈ l, (p.2 : Int) = listMaxI l h := by
  induction l generalizing h with
  | nil => left; rfl
  | cons e rest ih =>
    obtain ⟨pid, n⟩ := e
    rcases ih (max h (n : Int)) with heq | ⟨p, hp, hpv⟩
    · have hcons : listMaxI ((pid, n) :: rest) h = max h (n : Int) := heq
      rcases max_cases h (n : Int) with ⟨hm, _⟩ | ⟨hm, _⟩
      · left; rw [hcons, hm]
      · right
        refine ⟨(pid, n), List.mem_cons_self _ _, ?_⟩
        show (n : Int) = listMaxI ((pid, n) :: rest) h
        rw [hcons, hm]
    · right; exact ⟨p, List.mem_cons_of_mem _ hp, hpv⟩

theorem maxHolders_cons (pid : String) (n : Nat) (rest : List (String × Nat))
    (m : Int) :
    maxHolders ((pid, n) :: rest) m =
      if (n : Int) = m then pid :: maxHolders rest m else maxHolders rest m := by
  simp only [maxHolders, List.filter_cons]
  by_cases h : (n : Int) = m
  · simp [h]
  · simp [h]

theorem foldMax_spec (l : List (String × Nat)) (h : Int) (w : List String) :
    foldMax l h w =
      (listMaxI l h,
        if listMaxI l h = h then w ++ maxHolders l (listMaxI l h)
        else maxHolders l (listMaxI l h)) := by
  induction l generalizing h w with
  | nil => simp [foldMax, listMaxI, maxHolders]
  | cons e rest ih =>
    obtain ⟨pid, n⟩ := e
    have hM : listMaxI ((pid, n) :: rest) h = listMaxI rest (max h (n : Int)) := rfl
    by_cases h1 : h < (n : Int)
    · have hmax : max h (n : Int) = (n : Int) := max_eq_right h1.le
      have hMn : (n : Int) ≤ listMaxI rest (n : Int) := listMaxI_ge _ _
      have hL : foldMax ((pid, n) :: rest) h w = foldMax rest (n : Int) [pid] := by
        simp [foldMax, h1]
      have hMeq : listMaxI ((pid, n) :: rest) h = listMaxI rest (n : Int) := by
        rw [hM, hmax]
      have hMh : ¬ listMaxI rest (n : Int) = h := fun hc =>
        absurd (hc ▸ hMn) (not_le.mpr h1)
      rw [hL, ih, hMeq, if_neg hMh, maxHolders_cons]
      by_cases h2 : listMaxI rest (n : Int) = (n : Int)
      · rw [if_pos h2, if_pos h2.symm]
        simp
      · rw [if_neg h2, if_neg (fun hh => h2 hh.symm)]
    · by_cases h2 : (n : Int) = h
      · have hmax : max h (n : Int) = h := max_eq_left (le_of_eq h2)
        have hL : foldMax ((pid, n) :: rest) h w = foldMax rest h (w ++ [pid]) := by
          simp [foldMax, h1, h2]
        have hMeq : listMaxI ((pid, n) :: rest) h = listMaxI rest h := by
          rw [hM, hmax]
        rw [hL, ih, hMeq, maxHolders_cons]
        by_cases h3 : listMaxI rest h = h
        · rw [if_pos h3, if_pos h3, if_pos (h2.trans h3.symm)]
          simp
        · rw [if_neg h3, if_neg h3, if_neg (fun hh => h3 (hh.symm.trans h2))]
      · have h3 : (n : Int) < h := lt_of_le_of_ne (not_lt.mp h1) h2
        have hmax : max h (n : Int) = h := max_eq_left h3.le
        have hL : foldMax ((pid, n) :: rest) h w = foldMax rest h w := by
          simp [foldMax, h1, h2]
        have hMeq : listMaxI ((pid, n) :: rest) h = listMaxI rest h := by
          rw [hM, hmax]
        have hne : ¬ (n : Int) = listMaxI rest h :=
          fun hh => absurd (hh ▸ listMaxI_ge rest h) (not_le.mpr h3)
        rw [hL, ih, hMeq, maxHolders_cons, if_neg hne]

theorem maxHolders_map (l : List String) (v : String → Nat) (m : Int) :
    maxHolders (l.map (fun pid => (pid, v pid))) m =
      l.filter (fun pid => decide ((v pid : Int) = m)) := by
  induction l with
  | nil => rfl
  | cons a rest ih =>
    by_cases h : (v a : Int) = m
    · simp [maxHolders, List.filter_cons, h] at ih ⊢
      exact ih
    · simp [maxHolders, List.filter_cons, h] at ih ⊢
      exact ih

/-- Under the hypotheses of C2 the concrete scan agrees with foldMax. -/
theorem evalFold_eq_foldMax (ps : List (String × Player)) (stat : String)
    (l : List String) (v : String → Nat)
    (hv : ∀ pid ∈ l, ∃ p c, mapGet ps pid = some p ∧ p.pokemon = some c ∧
      statOf c stat = some (v pid)) :
    ∀ h w, GameRoom.evalFold ps stat l h w =
      some (foldMax (l.map (fun pid => (pid, v pid))) h w) := by
  induction l with
  | nil => intro h w; rfl
  | cons pid rest ih =>
    intro h w
    obtain ⟨p, c, hp, hc, hs⟩ := hv pid (List.mem_cons_self _ _)
    have ihr := ih (fun q hq => hv q (List.mem_cons_of_mem _ hq))
    simp only [GameRoom.evalFold, hp, hc, hs, List.map_cons, foldMax]
    by_cases h1 : h < (v pid : Int)
    · simp [h1, ihr]
    · by_cases h2 : (v pid : Int) = h
      · simp [h1, h2, ihr]
      · simp [h1, h2, ihr]

theorem mem_active_iff (r : GameRoom) (pid : String) :
    pid ∈ r.getActivePlayers ↔
      pid ∈ r.players.map Prod.fst ∧ r.winners.contains pid = false := by
  simp [GameRoom.getActivePlayers, List.mem_filter]

theorem evaluateRound_unfold (r : GameRoom) (stat : String) :
    r.evaluateRound stat =
      (match GameRoom.evalFold r.players stat
          (if r.inTieBreaker then r.tieBreakPlayers else r.getActivePlayers)
          (-1) [] with
       | none => none
       | some (_, roundWinners) =>
         let r1 : GameRoom := { r with lastSelectedStat := some stat }
         let r2 :=
           if r.inTieBreaker then r1
           else
             match roundWinners with
             | [] => r1
             | w0 :: _ =>
               match mapGet r.players w0 with
               | none => r1
               | some winner =>
                 let winner' := { winner with score := winner.score + 1 }
                 let r2a := { r1 with players := mapSet r.players w0 winner' }
                 if r.settings.roundsToWin ≤ winner'.score then
                   if r.winners.contains w0 then r2a
                   else { r2a with winners := r2a.winners ++ [w0] }
                 else r2a
         some ({ roundWinners := roundWinners, gameWinners := r2.winners,
                 winners := r2.winners,
                 gameEnded := decide (r2.settings.maxWinners ≤ r2.winners.length),
                 stat := stat }, r2)) := rfl

theorem evaluateRound_eq_nonTB (r : GameRoom) (stat : String)
    (hTB : r.inTieBreaker = false)
    {Mi : Int} {w0 : String} {ws : List String}
    (hfold : GameRoom.evalFold r.players stat r.getActivePlayers (-1) [] =
      some (Mi, w0 :: ws))
    {p : Player} (hp : mapGet r.players w0 = some p)
    (hw0win : r.winners.contains w0 = false) :
    r.evaluateRound stat =
      (if r.settings.roundsToWin ≤ p.score + 1 then
        some ({ roundWinners := w0 :: ws, gameWinners := r.winners ++ [w0],
                winners := r.winners ++ [w0],
                gameEnded :=
                  decide (r.settings.maxWinners ≤ (r.winners ++ [w0]).length),
                stat := stat },
              { r with lastSelectedStat := some stat,
                       players := mapSet r.players w0 { p with score := p.score + 1 },
                       winners := r.winners ++ [w0] })
      else
        some ({ roundWinners := w0 :: ws, gameWinners := r.winners,
                winners := r.winners,
                gameEnded := decide (r.settings.maxWinners ≤ r.winners.length),
                stat := stat },
              { r with lastSelectedStat := some stat,
                       players := mapSet r.players w0 { p with score := p.score + 1 } })) := by
  rw [evaluateRound_unfold]
  rw [show (if r.inTieBreaker then r.tieBreakPlayers else r.getActivePlayers) =
        r.getActivePlayers by rw [hTB]; rfl]
  rw [hfold]
  simp only [hTB, Bool.false_eq_true, if_false, hp, hw0win]
  by_cases hs : r.settings.roundsToWin ≤ p.score + 1
  · rw [if_pos hs, if_pos hs]
  · rw [if_neg hs, if_neg hs]

/-- Claim C2: outside tie-breaker mode, with a non-empty active pool whose
members all hold cards carrying a value for the selected stat, evaluateRound
returns exactly the active players attaining the maximum value of that stat,
in roster iteration order; only the first of them receives a one-point score
increment; reaching roundsToWin appends that player to winners, never twice. -/
theorem evaluateRound_scoring_spec (r : GameRoom) (stat : String)
    (v : String → Nat)
    (hTB : r.inTieBreaker = false)
    (hNE : r.getActivePlayers ≠ [])
    (hv : ∀ pid ∈ r.getActivePlayers, ∃ p c, mapGet r.players pid = some p ∧
      p.pokemon = some c ∧ statOf c stat = some (v pid)) :
    ∃ res r2 M w0 ws p,
      r.evaluateRound stat = some (res, r2) ∧
      res.roundWinners = w0 :: ws ∧
      res.roundWinners =
        r.getActivePlayers.filter (fun pid => decide (v pid = M)) ∧
      (∀ pid ∈ r.getActivePlayers, v pid ≤ M) ∧
      w0 ∈ r.getActivePlayers ∧ v w0 = M ∧
      mapGet r.players w0 = some p ∧
      (∀ pid, pid ≠ w0 → mapGet r2.players pid = mapGet r.players pid) ∧
      mapGet r2.players w0 = some { p with score := p.score + 1 } ∧
      r2.winners = (if r.settings.roundsToWin ≤ p.score + 1
        then r.winners ++ [w0] else r.winners) ∧
      r2.winners.count w0 ≤ 1 := by
  classical
  set L := r.getActivePlayers with hL
  set pairs := L.map (fun pid => (pid, v pid)) with hpairs
  set Mi := listMaxI pairs (-1) with hMidef
  have hscan : GameRoom.evalFold r.players stat L (-1) [] =
      some (foldMax pairs (-1) []) :=
    evalFold_eq_foldMax r.players stat L v hv (-1) []
  obtain ⟨q0, L0, hL0⟩ : ∃ q0 L0, L = q0 :: L0 := by
    cases hLc : L with
    | nil => exact absurd hLc hNE
    | cons a b => exact ⟨a, b, rfl⟩
  have hq0 : (v q0 : Int) ≤ Mi := by
    refine listMaxI_ub pairs (-1) (q0, v q0) ?_
    rw [hpairs, hL0]
    exact List.mem_cons_self _ _
  have hMne : ¬ Mi = (-1 : Int) := by
    intro hc
    rw [hc] at hq0
    have h0 : (0 : Int) ≤ (v q0 : Int) := Int.ofNat_nonneg _
    omega
  have hH : foldMax pairs (-1) [] = (Mi, maxHolders pairs Mi) := by
    rw [foldMax_spec, if_neg hMne]
  rcases listMaxI_attained pairs (-1) with hc | ⟨q, hqmem, hqv⟩
  · exact absurd hc hMne
  obtain ⟨q1, hq1L, hq1⟩ := List.mem_map.mp (by rw [hpairs] at hqmem; exact hqmem)
  have hq1v : (v q1 : Int) = Mi := by rw [hMidef, ← hqv, ← hq1]
  set M := v q1 with hMdef
  have hHolders : maxHolders pairs Mi =
      L.filter (fun pid => decide (v pid = M)) := by
    rw [hpairs, maxHolders_map]
    refine List.filter_congr ?_
    intro pid hpid
    rw [← hq1v]
    simp [Nat.cast_inj]
  have hub : ∀ pid ∈ L, v pid ≤ M := by
    intro pid hpid
    have hle := listMaxI_ub pairs (-1) (pid, v pid)
      (by rw [hpairs]; exact List.mem_map.mpr ⟨pid, hpid, rfl⟩)
    have hle2 : (v pid : Int) ≤ Mi := by rw [hMidef]; exact hle
    rw [← hq1v] at hle2
    exact_mod_cast hle2
  have hq1H : q1 ∈ L.filter (fun pid => decide (v pid = M)) :=
    List.mem_filter.mpr ⟨hq1L, by simp⟩
  cases hHd : L.filter (fun pid => decide (v pid = M)) with
  | nil => rw [hHd] at hq1H; simp at hq1H
  | cons w0 ws =>
  have hw0f : w0 ∈ L.filter (fun pid => decide (v pid = M)) := by
    rw [hHd]; exact List.mem_cons_self _ _
  have hw0L : w0 ∈ L := (List.mem_filter.mp hw0f).1
  have hw0M : v w0 = M := by
    have := (List.mem_filter.mp hw0f).2
    simpa using this
  obtain ⟨p, c, hp, hcard, hstat⟩ := hv w0 hw0L
  have hw0win : r.winners.contains w0 = false :=
    ((mem_active_iff r w0).mp (hL ▸ hw0L)).2
  have hw0nmem : w0 ∉ r.winners := by simpa using hw0win
  have hcount0 : r.winners.count w0 = 0 := List.count_eq_zero.mpr hw0nmem
  have hfoldres : GameRoom.evalFold r.players stat L (-1) [] =
      some (Mi, w0 :: ws) := by
    rw [hscan, hH, hHolders, hHd]
  have hEval := evaluateRound_eq_nonTB r stat hTB (hL ▸ hfoldres) hp hw0win
  by_cases hs : r.settings.roundsToWin ≤ p.score + 1
  · rw [if_pos hs] at hEval
    refine ⟨_, _, M, w0, ws, p, hEval, rfl, hHd.symm, hub, hw0L, hw0M, hp,
      ?_, ?_, ?_, ?_⟩
    · intro pid hpid
      exact mapGet_mapSet_ne r.players _ hpid
    · exact mapGet_mapSet_self r.players w0 _
    · rw [if_pos hs]
    · show (r.winners ++ [w0]).count w0 ≤ 1
      simp [List.count_append, hcount0]
  · rw [if_neg hs] at hEval
    refine ⟨_, _, M, w0, ws, p, hEval, rfl, hHd.symm, hub, hw0L, hw0M, hp,
      ?_, ?_, ?_, ?_⟩
    · intro pid hpid
      exact mapGet_mapSet_ne r.players _ hpid
    · exact mapGet_mapSet_self r.players w0 _
    · rw [if_neg hs]
    · show r.winners.count w0 ≤ 1
      simp [hcount0]

/- Concrete inputs used by the witness theorems. -/

def cardW2 (hp : Nat) : Card :=
  { id := 1, name := "w", sprite := "s", hp := hp,
    stats := { attack := 0, defense := 0, speed := 0 }, ctype := "t" }

def pA : Player := { name := "ann", score := 0, pokemon := some (cardW2 50), isCreator := true }
def pB : Player := { name := "bob", score := 0, pokemon := some (cardW2 80), isCreator := false }
def pC : Player := { name := "cat", score := 0, pokemon := some (cardW2 80), isCreator := false }

def roomC2 : GameRoom :=
  { players := [("A", pA), ("B", pB), ("C", pC)],
    currentRound := 1, currentPicker := some "A",
    settings := { roundsToWin := 3, maxWinners := 1 },
    winners := [], creator := some "A", pickerCycle := [], pickerIndex := 0,
    inTieBreaker := false, tieBreakPlayers := [], lastSelectedStat := none,
    playerNames := ["ann", "bob", "cat"] }

def vC2 : String → Nat := fun pid => if pid = "A" then 50 else 80

/-- Witness for C2: the hp 50/80/80 pool of the spec example. -/
theorem evaluateRound_scoring_spec_witness :
    ∃ res r2 M w0 ws p,
      roomC2.evaluateRound "hp" = some (res, r2) ∧
      res.roundWinners = w0 :: ws ∧
      res.roundWinners =
        roomC2.getActivePlayers.filter (fun pid => decide (vC2 pid = M)) ∧
      (∀ pid ∈ roomC2.getActivePlayers, vC2 pid ≤ M) ∧
      w0 ∈ roomC2.getActivePlayers ∧ vC2 w0 = M ∧
      mapGet roomC2.players w0 = some p ∧
      (∀ pid, pid ≠ w0 → mapGet r2.players pid = mapGet roomC2.players pid) ∧
      mapGet r2.players w0 = some { p with score := p.score + 1 } ∧
      r2.winners = (if roomC2.settings.roundsToWin ≤ p.score + 1
        then roomC2.winners ++ [w0] else roomC2.winners) ∧
      r2.winners.count w0 ≤ 1 := by
  refine evaluateRound_scoring_spec roomC2 "hp" vC2 rfl (by decide) ?_
  intro pid hpid
  have hmem : pid = "A" ∨ pid = "B" ∨ pid = "C" := by
    have hact : roomC2.getActivePlayers = ["A", "B", "C"] := rfl
    rw [hact] at hpid
    simpa using hpid
  rcases hmem with h | h | h <;> subst h
  · exact ⟨pA, cardW2 50, rfl, rfl, rfl⟩
  · exact ⟨pB, cardW2 80, rfl, rfl, rfl⟩
  · exact ⟨pC, cardW2 80, rfl, rfl, rfl⟩

/- The reconnection branch of the joinRoom handler. -/

theorem joinRoom_reconnect_eq (r : GameRoom) (live : List String)
    (X Y N : String) (p : Player)
    (hnd : (r.players.map Prod.fst).Nodup)
    (hfind : r.players.find? (fun e => strToLower e.2.name == strToLower N) =
      some (X, p))
    (hstale : live.contains X = false)
    (hYX : Y ≠ X)
    (hYfresh : mapGet r.players Y = none) :
    joinRoom r live Y N =
      { r with
        players := mapDelete r.players X ++
          [(Y, { name := N, score := p.score, pokemon := p.pokemon,
                 isCreator := p.isCreator })],
        playerNames := setAdd (setDelete r.playerNames (strToLower p.name)) (strToLower N),
        creator := if p.isCreator then some Y else r.creator } := by
  have hmem : (X, p) ∈ r.players := List.mem_of_find?_eq_some hfind
  have hgetX : mapGet r.players X = some p := mapGet_of_mem_nodup hmem hnd
  have hgetXdel : mapGet (mapDelete r.players X) Y = none := by
    rw [mapGet_mapDelete_ne _ hYX]; exact hYfresh
  unfold joinRoom
  rw [hfind]
  cases hcr : p.isCreator with
  | true =>
    simp only [hstale, Bool.false_eq_true, if_false,
      GameRoom.clearPlayerName, GameRoom.removePlayer, GameRoom.addPlayer,
      hgetX, hcr, if_true, mapGet_mapSet_self,
      mapSet_mapSet_same, setDelete_setDelete]
    rw [mapSet_append_of_get_none _ hgetXdel]
  | false =>
    simp only [hstale, Bool.false_eq_true, if_false,
      GameRoom.clearPlayerName, GameRoom.removePlayer, GameRoom.addPlayer,
      hgetX, hcr, if_false, mapGet_mapSet_self,
      mapSet_mapSet_same, setDelete_setDelete]
    rw [mapSet_append_of_get_none _ hgetXdel]

/-- Claim C1: a join under a new session Y whose name matches a roster entry
held by a stale session X removes X, inserts Y with that name carrying over
score, card and creator flag, redirects the creator pointer to Y when X was
creator, and leaves exactly one reservation for the name in the room. -/
theorem joinRoom_reconnect_spec (r : GameRoom) (live : List String)
    (X Y N : String) (p : Player)
    (hnd : (r.players.map Prod.fst).Nodup)
    (hfind : r.players.find? (fun e => strToLower e.2.name == strToLower N) =
      some (X, p))
    (hstale : live.contains X = false)
    (hYX : Y ≠ X)
    (hYfresh : mapGet r.players Y = none) :
    mapGet (joinRoom r live Y N).players X = none ∧
    mapGet (joinRoom r live Y N).players Y =
      some { name := N, score := p.score, pokemon := p.pokemon,
             isCreator := p.isCreator } ∧
    (joinRoom r live Y N).creator = (if p.isCreator then some Y else r.creator) ∧
    (joinRoom r live Y N).playerNames.count (strToLower N) = 1 := by
  have hname : (strToLower p.name) = (strToLower N) := by
    have := List.find?_some hfind
    exact eq_of_beq this
  have hgetXdel : mapGet (mapDelete r.players X) Y = none := by
    rw [mapGet_mapDelete_ne _ hYX]; exact hYfresh
  rw [joinRoom_reconnect_eq r live X Y N p hnd hfind hstale hYX hYfresh]
  refine ⟨?_, ?_, rfl, ?_⟩
  · show mapGet (mapDelete r.players X ++ _) X = none
    rw [mapGet_append_of_none _ (mapGet_mapDelete_self r.players X)]
    simp [mapGet, fun h : Y = X => hYX h]
  · show mapGet (mapDelete r.players X ++ _) Y = _
    rw [mapGet_append_of_none _ hgetXdel]
    simp [mapGet]
  · show (setAdd (setDelete r.playerNames (strToLower p.name)) (strToLower N)).count
      (strToLower N) = 1
    rw [hname]
    exact setAdd_count_one (setDelete_count_zero _ _)

def roomC1 : GameRoom :=
  { players := [("X", { name := "Alice", score := 2, pokemon := none,
                        isCreator := true })],
    currentRound := 1, currentPicker := none,
    settings := { roundsToWin := 3, maxWinners := 1 },
    winners := [], creator := some "X", pickerCycle := [], pickerIndex := 0,
    inTieBreaker := false, tieBreakPlayers := [], lastSelectedStat := none,
    playerNames := ["alice"] }

/-- Witness for C1: Alice with score 2 under stale session X rejoins as Y. -/
theorem joinRoom_reconnect_spec_witness :
    mapGet (joinRoom roomC1 [] "Y" "Alice").players "X" = none ∧
    mapGet (joinRoom roomC1 [] "Y" "Alice").players "Y" =
      some { name := "Alice", score := 2, pokemon := none, isCreator := true } ∧
    (joinRoom roomC1 [] "Y" "Alice").creator =
      (if ({ name := "Alice", score := 2, pokemon := none,
             isCreator := true } : Player).isCreator
       then some "Y" else roomC1.creator) ∧
    (joinRoom roomC1 [] "Y" "Alice").playerNames.count (strToLower "Alice") = 1 :=
  joinRoom_reconnect_spec roomC1 [] "X" "Y" "Alice"
    { name := "Alice", score := 2, pokemon := none, isCreator := true }
    (by decide) (by decide) rfl (by decide) (by decide)

/-- Claim C10: after a reconnection the replacement entry sits at the very
end of the roster iteration order, with score, card and creator flag carried
over, so the player's rotation position is not preserved. -/
theorem joinRoom_reconnect_appends (r : GameRoom) (live : List String)
    (X Y N : String) (p : Player)
    (hnd : (r.players.map Prod.fst).Nodup)
    (hfind : r.players.find? (fun e => strToLower e.2.name == strToLower N) =
      some (X, p))
    (hstale : live.contains X = false)
    (hYX : Y ≠ X)
    (hYfresh : mapGet r.players Y = none) :
    (joinRoom r live Y N).players =
      mapDelete r.players X ++
        [(Y, { name := N, score := p.score, pokemon := p.pokemon,
               isCreator := p.isCreator })] ∧
    ((joinRoom r live Y N).players.map Prod.fst).getLast? = some Y := by
  rw [joinRoom_reconnect_eq r live X Y N p hnd hfind hstale hYX hYfresh]
  refine ⟨rfl, ?_⟩
  show ((mapDelete r.players X ++ _).map Prod.fst).getLast? = some Y
  rw [List.map_append]
  exact List.getLast?_concat _

def roomC10 : GameRoom :=
  { players := [("X", { name := "dana", score := 1, pokemon := none,
                        isCreator := false }),
                ("Z", { name := "edna", score := 0, pokemon := none,
                        isCreator := true })],
    currentRound := 1, currentPicker := none,
    settings := { roundsToWin := 3, maxWinners := 1 },
    winners := [], creator := some "Z", pickerCycle := [], pickerIndex := 0,
    inTieBreaker := false, tieBreakPlayers := [], lastSelectedStat := none,
    playerNames := ["dana", "edna"] }

/-- Witness for C10: dana, first in the roster, reconnects and lands last. -/
theorem joinRoom_reconnect_appends_witness :
    (joinRoom roomC10 [] "Y" "dana").players =
      mapDelete roomC10.players "X" ++
        [("Y", { name := "dana", score := 1, pokemon := none,
                 isCreator := false })] ∧
    ((joinRoom roomC10 [] "Y" "dana").players.map Prod.fst).getLast? =
      some "Y" :=
  joinRoom_reconnect_appends roomC10 [] "X" "Y" "dana"
    { name := "dana", score := 1, pokemon := none, isCreator := false }
    (by decide) (by decide) rfl (by decide) (by decide)

theorem list_getElem3_zero (l : List String) : l[0]? = l.head? := by
  cases l <;> simp

theorem isEmpty_false_of_ne {l : List String} (h : l ≠ []) :
    l.isEmpty = false := by
  cases l with
  | nil => exact absurd rfl h
  | cons a b => rfl

/-- Claim C6: nextPicker is absent on an empty active set; the first active
player when the picker is absent, a winner, or not found among the active
players; otherwise the active player immediately after the current picker in
roster order, wrapping past the end. -/
theorem getNextPicker_spec (r : GameRoom) :
    (r.getActivePlayers = [] → r.getNextPicker = none) ∧
    (r.getActivePlayers ≠ [] → r.currentPicker = none →
      r.getNextPicker = r.getActivePlayers.head?) ∧
    (∀ cp, r.getActivePlayers ≠ [] → r.currentPicker = some cp →
      cp ∉ r.getActivePlayers → r.getNextPicker = r.getActivePlayers.head?) ∧
    (∀ cp l1 l2, r.currentPicker = some cp →
      r.getActivePlayers = l1 ++ cp :: l2 → cp ∉ l1 →
      r.getNextPicker =
        (if l2 = [] then r.getActivePlayers.head? else l2.head?)) := by
  refine ⟨?_, ?_, ?_, ?_⟩
  · intro h
    simp [GameRoom.getNextPicker, h]
  · intro hne hcp
    simp [GameRoom.getNextPicker, hcp, isEmpty_false_of_ne hne]
  · intro cp hne hcp hnm
    have hidx : listIndexOf r.getActivePlayers cp = none := listIndexOf_eq_none hnm
    by_cases hw : cp ∈ r.winners
    · simp [GameRoom.getNextPicker, hcp, isEmpty_false_of_ne hne, hw]
    · simp [GameRoom.getNextPicker, hcp, isEmpty_false_of_ne hne, hw, hidx]
  · intro cp l1 l2 hcp hdec hnm
    have hmem : cp ∈ r.getActivePlayers := by
      rw [hdec]; exact List.mem_append_right _ (List.mem_cons_self _ _)
    have hw : r.winners.contains cp = false :=
      ((mem_active_iff r cp).mp hmem).2
    have hwm : cp ∉ r.winners := by simpa using hw
    have hne : r.getActivePlayers ≠ [] := by
      rw [hdec]
      exact List.append_ne_nil_of_right_ne_nil _ (List.cons_ne_nil _ _)
    have hie := isEmpty_false_of_ne hne
    have hidx : listIndexOf r.getActivePlayers cp = some l1.length := by
      rw [hdec]; exact listIndexOf_append_self _ hnm
    cases hl2 : l2 with
    | nil =>
      subst hl2
      have hlen : r.getActivePlayers.length = l1.length + 1 := by
        rw [hdec]; simp
      have hmod : (l1.length + 1) % r.getActivePlayers.length = 0 := by
        rw [hlen]; exact Nat.mod_self _
      simp [GameRoom.getNextPicker, hie, hcp, hwm, hidx, hmod, list_getElem3_zero]
    | cons b bs =>
      subst hl2
      have hlt : l1.length + 1 < r.getActivePlayers.length := by
        rw [hdec]; simp
      have hmod : (l1.length + 1) % r.getActivePlayers.length = l1.length + 1 :=
        Nat.mod_eq_of_lt hlt
      have hget : r.getActivePlayers[l1.length + 1]? = some b := by
        rw [hdec, List.getElem?_append_right (by omega)]
        simp
      simp [GameRoom.getNextPicker, hie, hcp, hwm, hidx, hmod, hget]

def roomC6 : GameRoom :=
  { players := [("A", { name := "al", score := 0, pokemon := none, isCreator := true }),
                ("B", { name := "bo", score := 0, pokemon := none, isCreator := false }),
                ("C", { name := "cy", score := 0, pokemon := none, isCreator := false })],
    currentRound := 1, currentPicker := some "B",
    settings := { roundsToWin := 3, maxWinners := 1 },
    winners := [], creator := some "A", pickerCycle := [], pickerIndex := 0,
    inTieBreaker := false, tieBreakPlayers := [], lastSelectedStat := none,
    playerNames := ["al", "bo", "cy"] }

/-- Witness for C6: active set [A, B, C], current picker B, next picker C. -/
theorem getNextPicker_spec_witness : roomC6.getNextPicker = some "C" := by
  have h := (getNextPicker_spec roomC6).2.2.2 "B" ["A"] ["C"] rfl (by decide)
    (by decide)
  simpa using h

def roomC9 : GameRoom :=
  { players := [("A", { name := "amy", score := 1, pokemon := none, isCreator := true }),
                ("B", { name := "ben", score := 0, pokemon := none, isCreator := false })],
    currentRound := 1, currentPicker := none,
    settings := { roundsToWin := 3, maxWinners := 1 },
    winners := [], creator := some "A", pickerCycle := [], pickerIndex := 0,
    inTieBreaker := false, tieBreakPlayers := [], lastSelectedStat := none,
    playerNames := ["amy", "ben"] }

/-- Claim C9: a self-transfer by the current creator succeeds and is an
identity operation: the whole room state, the creator pointer and the
isCreator flag are unchanged. -/
theorem transferCreator_self_id (r : GameRoom) (C : String) (p : Player)
    (hc : r.creator = some C)
    (hp : mapGet r.players C = some p)
    (hflag : p.isCreator = true) :
    r.transferCreator C C = (true, r) := by
  unfold GameRoom.transferCreator
  rw [hp, hc]
  simp only [eq_self_iff_true, if_true, mapSet_mapSet_same]
  have hrec : ({ p with isCreator := true } : Player) = p := by
    obtain ⟨n, sc, pk, ic⟩ := p
    simp only at hflag
    rw [hflag]
  rw [hrec, mapSet_eq_self hp, ← hc]

/-- Witness for C9: the creator A transfers to themself. -/
theorem transferCreator_self_id_witness :
    roomC9.transferCreator "A" "A" = (true, roomC9) :=
  transferCreator_self_id roomC9 "A"
    { name := "amy", score := 1, pokemon := none, isCreator := true }
    rfl (by decide) rfl

def roomC4 : GameRoom :=
  { players := [("A", { name := "abe", score := 0, pokemon := none, isCreator := true }),
                ("B", { name := "bea", score := 0, pokemon := none, isCreator := false })],
    currentRound := 1, currentPicker := none,
    settings := { roundsToWin := 3, maxWinners := 1 },
    winners := [], creator := some "A", pickerCycle := [], pickerIndex := 0,
    inTieBreaker := false, tieBreakPlayers := [], lastSelectedStat := none,
    playerNames := ["abe", "bea"] }

/-- Claim C4 (code bug): the update-settings event handler merges the raw
requested settings and never re-validates, so a two-player room stores
maxWinners 5, while validateMaxWinners and the never-called
GameRoom.updateSettings method would clamp the same request to 1. -/
theorem updateSettings_no_revalidation :
    (updateSettingsEvent roomC4
      { roundsToWin := none, maxWinners := some 5 }).settings.maxWinners = 5 ∧
    roomC4.validateMaxWinners 5 = 1 ∧
    (roomC4.updateSettings
      { roundsToWin := none, maxWinners := some 5 }).settings.maxWinners = 1 := by
  decide

theorem statOf_unrecognized {stat : String}
    (h : stat ∉ (["hp", "attack", "defense", "speed"] : List String)) :
    ∀ c : Card, statOf c stat = none := by
  intro c
  simp only [List.mem_cons, List.mem_singleton] at h
  push_neg at h
  obtain ⟨h1, h2, h3, h4⟩ := h
  simp [statOf, statsLookup, h1, h2, h3, h4]

theorem evalFold_unrecognized (ps : List (String × Player)) (stat : String)
    (hstat : ∀ c : Card, statOf c stat = none) :
    ∀ (l : List String),
      (∀ pid ∈ l, ∃ p c, mapGet ps pid = some p ∧ p.pokemon = some c) →
      ∀ h w, GameRoom.evalFold ps stat l h w = some (h, w) := by
  intro l
  induction l with
  | nil => intro _ h w; rfl
  | cons pid rest ih =>
    intro hv h w
    obtain ⟨p, c, hp, hc⟩ := hv pid (List.mem_cons_self _ _)
    simp only [GameRoom.evalFold, hp, hc, hstat c]
    exact ih (fun q hq => hv q (List.mem_cons_of_mem _ hq)) h w

def roomC7 : GameRoom :=
  { players := [("A", { name := "ada", score := 0, pokemon := some (cardW2 50),
                        isCreator := true }),
                ("B", { name := "bud", score := 0, pokemon := some (cardW2 80),
                        isCreator := false })],
    currentRound := 2, currentPicker := some "A",
    settings := { roundsToWin := 3, maxWinners := 1 },
    winners := [], creator := some "A", pickerCycle := [], pickerIndex := 0,
    inTieBreaker := false, tieBreakPlayers := [], lastSelectedStat := none,
    playerNames := ["ada", "bud"] }

/-- Counterexample to claim C7: evaluateRound with the unrecognized stat name
"color" over a non-empty pool does not fail with any error: it returns a
normal result with empty roundWinners, and it mutates the room by recording
lastSelectedStat, so the failing case does not leave the state unchanged. -/
theorem evaluateRound_invalid_stat_cex :
    roomC7.evaluateRound "color" =
      some ({ roundWinners := [], gameWinners := [], winners := [],
              gameEnded := false, stat := "color" },
            { roomC7 with lastSelectedStat := some "color" }) ∧
    { roomC7 with lastSelectedStat := some "color" } ≠ roomC7 := by
  decide

/-- Claim C7 amended: evaluateRound performs no validation at all: with an
empty evaluation pool, or with an unrecognized stat name over a pool whose
members all hold cards, it returns a normal result (never an InvalidStat
error) whose roundWinners is empty, leaves every score and the winners list
unchanged, but records the stat name as lastSelectedStat. -/
theorem evaluateRound_no_validation (r : GameRoom) (stat : String)
    (hTB : r.inTieBreaker = false)
    (h : r.getActivePlayers = [] ∨
      (stat ∉ (["hp", "attack", "defense", "speed"] : List String) ∧
        ∀ pid ∈ r.getActivePlayers, ∃ p c,
          mapGet r.players pid = some p ∧ p.pokemon = some c)) :
    r.evaluateRound stat =
      some ({ roundWinners := [], gameWinners := r.winners,
              winners := r.winners,
              gameEnded := decide (r.settings.maxWinners ≤ r.winners.length),
              stat := stat },
            { r with lastSelectedStat := some stat }) := by
  have hscan : GameRoom.evalFold r.players stat r.getActivePlayers (-1) [] =
      some (-1, []) := by
    rcases h with h | ⟨hstat, hcards⟩
    · rw [h]; rfl
    · exact evalFold_unrecognized r.players stat (statOf_unrecognized hstat)
        r.getActivePlayers hcards (-1) []
  rw [evaluateRound_unfold]
  rw [show (if r.inTieBreaker then r.tieBreakPlayers else r.getActivePlayers) =
        r.getActivePlayers by rw [hTB]; rfl]
  rw [hscan]
  simp only [hTB, Bool.false_eq_true, if_false]

def roomC7w : GameRoom :=
  { players := [("W", { name := "wes", score := 3, pokemon := none,
                        isCreator := true })],
    currentRound := 4, currentPicker := none,
    settings := { roundsToWin := 3, maxWinners := 1 },
    winners := ["W"], creator := some "W", pickerCycle := [], pickerIndex := 0,
    inTieBreaker := false, tieBreakPlayers := [], lastSelectedStat := none,
    playerNames := ["wes"] }

/-- Witness for the amended C7: a room whose sole player is already a winner
has an empty evaluation pool. -/
theorem evaluateRound_no_validation_witness :
    roomC7w.evaluateRound "hp" =
      some ({ roundWinners := [], gameWinners := roomC7w.winners,
              winners := roomC7w.winners,
              gameEnded :=
                decide (roomC7w.settings.maxWinners ≤ roomC7w.winners.length),
              stat := "hp" },
            { roomC7w with lastSelectedStat := some "hp" }) :=
  evaluateRound_no_validation roomC7w "hp" rfl (Or.inl (by decide))

/-- Claim C8 amended: createRoom stores the new room under the generated code
unconditionally, with no check against existing registry keys: the generated
code's entry becomes the new room (overwriting any room already stored under
that code) and all other entries are untouched. -/
theorem createRoom_overwrites (reg : Registry)
    (roomCode socketId playerName : String) (settings : SettingsUpdate) :
    mapGet (createRoom reg roomCode socketId playerName settings) roomCode =
      some ((GameRoom.new settings).addPlayer socketId playerName true) ∧
    ∀ c, c ≠ roomCode →
      mapGet (createRoom reg roomCode socketId playerName settings) c =
        mapGet reg c := by
  constructor
  · exact mapGet_mapSet_self reg roomCode _
  · intro c hc
    exact mapGet_mapSet_ne reg _ hc

def roomOld : GameRoom := createdRoom { roundsToWin := none, maxWinners := none } "S" "sam"
def regC8 : Registry := [("ABC123", roomOld)]

/-- Counterexample to claim C8: a generated code colliding with the existing
room code ABC123 is not checked or regenerated: createRoom overwrites the
existing room's registry entry. -/
theorem createRoom_collision_cex :
    mapGet (createRoom regC8 "ABC123" "T" "tom"
      { roundsToWin := none, maxWinners := none }) "ABC123" ≠ some roomOld ∧
    mapGet (createRoom regC8 "ABC123" "T" "tom"
      { roundsToWin := none, maxWinners := none }) "ABC123" =
      some ((GameRoom.new { roundsToWin := none, maxWinners := none }).addPlayer
        "T" "tom" true) := by
  decide

/-- Witness for the amended C8: creating over the one-room registry regC8
with the colliding code replaces its entry and leaves other codes absent. -/
theorem createRoom_overwrites_witness :
    mapGet (createRoom regC8 "ABC123" "T" "tom"
      { roundsToWin := none, maxWinners := none }) "ABC123" =
      some ((GameRoom.new { roundsToWin := none, maxWinners := none }).addPlayer
        "T" "tom" true) ∧
    ∀ c, c ≠ "ABC123" →
      mapGet (createRoom regC8 "ABC123" "T" "tom"
        { roundsToWin := none, maxWinners := none }) c = mapGet regC8 c :=
  createRoom_overwrites regC8 "ABC123" "T" "tom"
    { roundsToWin := none, maxWinners := none }

theorem clearPlayerName_players (r : GameRoom) (pid : String) :
    (r.clearPlayerName pid).players = r.players := by
  unfold GameRoom.clearPlayerName
  cases mapGet r.players pid <;> rfl

theorem clearPlayerName_creator (r : GameRoom) (pid : String) :
    (r.clearPlayerName pid).creator = r.creator := by
  unfold GameRoom.clearPlayerName
  cases mapGet r.players pid <;> rfl

theorem removePlayer_creator (r : GameRoom) (pid : String) :
    (r.removePlayer pid).creator = r.creator := by
  unfold GameRoom.removePlayer
  cases mapGet r.players pid <;> rfl

theorem removePlayer_get_ne (r : GameRoom) {pid q : String} (h : q ≠ pid) :
    mapGet (r.removePlayer pid).players q = mapGet r.players q := by
  unfold GameRoom.removePlayer
  cases mapGet r.players pid with
  | none => rfl
  | some p => exact mapGet_mapDelete_ne r.players h

theorem players_ne_nil_of_get_some {r : GameRoom} {q : String} {p : Player}
    (h : mapGet r.players q = some p) : r.players.isEmpty = false := by
  cases hm : r.players with
  | nil => rw [hm] at h; simp [mapGet] at h
  | cons a b => rfl

theorem assignNewCreator_noop (r : GameRoom)
    (hne : r.players.isEmpty = false)
    (hcm : r.creatorMissing = false) :
    r.assignNewCreator = (none, r) := by
  unfold GameRoom.assignNewCreator
  rw [hne, hcm]
  rfl

def roomC3solo : GameRoom :=
  createdRoom { roundsToWin := none, maxWinners := none } "C" "carl"
def regC3 : Registry := [("R", roomC3solo)]

/-- Counterexample to claim C3: the creator kicking themself empties the
roster, yet kick leaves the room in the registry while the same player
voluntarily leaving deletes it, so kick is not equivalent to a voluntary
departure. -/
theorem kick_not_leave_cex :
    kickPlayerReg regC3 "R" "C" "C" ≠ leaveRoomReg regC3 "R" "C" ∧
    leaveRoomReg regC3 "R" "C" = [] ∧
    (mapGet (kickPlayerReg regC3 "R" "C" "C") "R").isSome = true := by
  decide

/-- Claim C3 amended: a creator kick of a roster member other than the
creator produces exactly the registry state of that member voluntarily
leaving (the target was not the creator, so no creator reassignment fires,
and the roster keeps the requester, so no room deletion fires); a kick whose
requester is not the creator changes no state.  When the creator kicks
themself the two operations diverge: kick never reassigns the creator and
never deletes an emptied room. -/
theorem kick_eq_leave_noncreator_target (reg : Registry) (code req t : String)
    (r : GameRoom) (p : Player)
    (hreg : mapGet reg code = some r)
    (hc : r.creator = some req)
    (hp : mapGet r.players req = some p)
    (ht : t ≠ req) :
    kickPlayerReg reg code req t = leaveRoomReg reg code t ∧
    (∀ q, r.creator ≠ some q → kickPlayerReg reg code q t = reg) := by
  have hreq : req ≠ t := fun hh => ht hh.symm
  have hget1 : mapGet ((r.clearPlayerName t).removePlayer t).players req =
      some p := by
    rw [show ((r.clearPlayerName t).removePlayer t).players =
          ((r.clearPlayerName t).removePlayer t).players from rfl]
    rw [removePlayer_get_ne _ hreq]
    rw [clearPlayerName_players]
    exact hp
  have hne : ((r.clearPlayerName t).removePlayer t).players.isEmpty = false :=
    players_ne_nil_of_get_some hget1
  have hcr : ((r.clearPlayerName t).removePlayer t).creator = some req := by
    rw [removePlayer_creator, clearPlayerName_creator, hc]
  have hcm : ((r.clearPlayerName t).removePlayer t).creatorMissing = false := by
    unfold GameRoom.creatorMissing
    rw [hcr]
    show (mapGet ((r.clearPlayerName t).removePlayer t).players req).isNone = false
    rw [hget1]
    rfl
  constructor
  · unfold kickPlayerReg leaveRoomReg
    simp only [hreg]
    rw [hc, if_pos rfl, hne]
    simp only [Bool.false_eq_true, if_false]
    by_cases hwc : ((mapGet r.players t).map Player.isCreator).getD false = true
    · rw [if_pos hwc, assignNewCreator_noop _ hne hcm]
    · rw [if_neg hwc]
  · intro q hq
    unfold kickPlayerReg
    simp only [hreg]
    rw [if_neg hq]

def roomC3two : GameRoom :=
  { players := [("A", { name := "aya", score := 0, pokemon := none, isCreator := true }),
                ("B", { name := "bix", score := 0, pokemon := none, isCreator := false })],
    currentRound := 1, currentPicker := none,
    settings := { roundsToWin := 3, maxWinners := 1 },
    winners := [], creator := some "A", pickerCycle := [], pickerIndex := 0,
    inTieBreaker := false, tieBreakPlayers := [], lastSelectedStat := none,
    playerNames := ["aya", "bix"] }

def regC3two : Registry := [("R2", roomC3two)]

/-- Witness for the amended C3: the creator A kicks roster member B. -/
theorem kick_eq_leave_noncreator_target_witness :
    kickPlayerReg regC3two "R2" "A" "B" = leaveRoomReg regC3two "R2" "B" ∧
    (∀ q, roomC3two.creator ≠ some q →
      kickPlayerReg regC3two "R2" q "B" = regC3two) :=
  kick_eq_leave_noncreator_target regC3two "R2" "A" "B" roomC3two
    { name := "aya", score := 0, pokemon := none, isCreator := true }
    (by decide) rfl (by decide) (by decide)

/- Winners-preservation lemmas for the reachable-state invariant of C5. -/

theorem removePlayer_winners (r : GameRoom) (pid : String) :
    (r.removePlayer pid).winners = r.winners := by
  unfold GameRoom.removePlayer
  cases mapGet r.players pid <;> rfl

theorem clearPlayerName_winners (r : GameRoom) (pid : String) :
    (r.clearPlayerName pid).winners = r.winners := by
  unfold GameRoom.clearPlayerName
  cases mapGet r.players pid <;> rfl

theorem assignNewCreator_winners (r : GameRoom) :
    (r.assignNewCreator).2.winners = r.winners := by
  unfold GameRoom.assignNewCreator
  cases r.players.isEmpty
  · cases r.creatorMissing
    · rfl
    · cases r.players.head? with
      | none => rfl
      | some e => rfl
  · rfl

theorem joinRoom_winners (r : GameRoom) (live : List String)
    (pid name : String) : (joinRoom r live pid name).winners = r.winners := by
  cases hf : r.players.find? (fun e => strToLower e.2.name == strToLower name) with
  | none => simp only [joinRoom, hf]; rfl
  | some e =>
    obtain ⟨X, p⟩ := e
    by_cases hl : live.contains X = true
    · simp only [joinRoom, hf, hl, if_true]
    · simp only [joinRoom, hf, hl, if_false, GameRoom.addPlayer]
      cases hcf : p.isCreator <;>
        simp only [hcf, if_true, if_false, Bool.false_eq_true,
          Bool.true_eq_false] <;>
        split <;>
        simp only [removePlayer_winners, clearPlayerName_winners]

theorem leaveRoom_winners (r : GameRoom) (pid : String) :
    (leaveRoom r pid).winners = r.winners := by
  unfold leaveRoom
  by_cases h1 : ((r.clearPlayerName pid).removePlayer pid).players.isEmpty = true
  · rw [if_pos h1, removePlayer_winners, clearPlayerName_winners]
  · rw [if_neg h1]
    by_cases h2 : ((mapGet r.players pid).map Player.isCreator).getD false = true
    · rw [if_pos h2, assignNewCreator_winners, removePlayer_winners,
        clearPlayerName_winners]
    · rw [if_neg h2, removePlayer_winners, clearPlayerName_winners]

theorem kickPlayer_winners (r : GameRoom) (req target : String) :
    (kickPlayer r req target).winners = r.winners := by
  unfold kickPlayer
  by_cases h : r.creator = some req
  · rw [if_pos h, removePlayer_winners, clearPlayerName_winners]
  · rw [if_neg h]

theorem disconnectEvent_winners (r : GameRoom) (pid : String) :
    (disconnectEvent r pid).winners = r.winners := by
  unfold disconnectEvent
  cases mapGet r.players pid with
  | none => rfl
  | some p =>
    dsimp only
    by_cases h1 : ((r.clearPlayerName pid).removePlayer pid).players.isEmpty = true
    · rw [if_pos h1, removePlayer_winners, clearPlayerName_winners]
    · rw [if_neg h1]
      by_cases h2 : p.isCreator = true
      · rw [if_pos h2, assignNewCreator_winners, removePlayer_winners,
          clearPlayerName_winners]
      · rw [if_neg h2, removePlayer_winners, clearPlayerName_winners]

theorem startNewRound_winners (r : GameRoom) (draw : String → Card) :
    (r.startNewRound draw).winners = r.winners := by
  unfold GameRoom.startNewRound
  cases r.inTieBreaker <;> rfl

theorem startGame_winners (r : GameRoom) (draw : String → Card) :
    (r.startGame draw).winners = [] := by
  unfold GameRoom.startGame
  rw [startNewRound_winners]

theorem rematchEvent_winners (r : GameRoom) (draw : String → Card) :
    (rematchEvent r draw).winners = [] := by
  unfold rematchEvent
  rw [startNewRound_winners]

theorem evaluateRound_winners (r : GameRoom) (stat : String)
    (res : GameRoom.RoundResult) (r2 : GameRoom)
    (h : r.evaluateRound stat = some (res, r2)) :
    r2.winners = r.winners ∨
      ∃ w0, w0 ∉ r.winners ∧ r2.winners = r.winners ++ [w0] := by
  rw [evaluateRound_unfold] at h
  cases hE : GameRoom.evalFold r.players stat
      (if r.inTieBreaker then r.tieBreakPlayers else r.getActivePlayers)
      (-1) [] with
  | none => rw [hE] at h; simp at h
  | some pr =>
    obtain ⟨mi, rws⟩ := pr
    rw [hE] at h
    dsimp only at h
    rw [Option.some.injEq, Prod.mk.injEq] at h
    obtain ⟨-, hr2⟩ := h
    subst hr2
    split
    · exact Or.inl rfl
    · split
      · exact Or.inl rfl
      · rename_i w0 tail
        split
        · exact Or.inl rfl
        · rename_i winner hwin
          split
          · split
            · exact Or.inl rfl
            · rename_i hnc
              right
              refine ⟨w0, ?_, rfl⟩
              simpa using hnc
          · exact Or.inl rfl

theorem selectStat_winners_nodup (r : GameRoom) (pid stat : String)
    (h : r.winners.Nodup) : (selectStat r pid stat).winners.Nodup := by
  unfold selectStat
  by_cases hp : r.currentPicker = some pid
  · rw [if_pos hp]
    cases hE : r.evaluateRound stat with
    | none => exact h
    | some pr =>
      obtain ⟨res, r2⟩ := pr
      dsimp only
      have hw := evaluateRound_winners r stat res r2 hE
      have hnd2 : r2.winners.Nodup := by
        rcases hw with hw | ⟨w0, hnm, hw⟩
        · rw [hw]; exact h
        · rw [hw]; simp [List.nodup_append, h, hnm]
      by_cases hg : res.gameEnded = true
      · rw [if_pos hg]; exact hnd2
      · rw [if_neg hg]; exact hnd2
  · rw [if_neg hp]; exact h

theorem applyOp_winners_nodup (r : GameRoom) (op : Op)
    (h : r.winners.Nodup) : (applyOp r op).winners.Nodup := by
  cases op with
  | join live pid name =>
    show (joinRoom r live pid name).winners.Nodup
    rw [joinRoom_winners]; exact h
  | leave pid =>
    show (leaveRoom r pid).winners.Nodup
    rw [leaveRoom_winners]; exact h
  | kick req target =>
    show (kickPlayer r req target).winners.Nodup
    rw [kickPlayer_winners]; exact h
  | disconnect pid =>
    show (disconnectEvent r pid).winners.Nodup
    rw [disconnectEvent_winners]; exact h
  | startGame draw =>
    show (r.startGame draw).winners.Nodup
    rw [startGame_winners]; exact List.nodup_nil
  | rematch draw =>
    show (rematchEvent r draw).winners.Nodup
    rw [rematchEvent_winners]; exact List.nodup_nil
  | selectStat pid stat => exact selectStat_winners_nodup r pid stat h
  | newRound draw =>
    show (r.startNewRound draw).winners.Nodup
    rw [startNewRound_winners]; exact h

theorem applyOps_winners_nodup (ops : List Op) (r : GameRoom)
    (h : r.winners.Nodup) : (applyOps r ops).winners.Nodup := by
  induction ops generalizing r with
  | nil => exact h
  | cons op rest ih => exact ih _ (applyOp_winners_nodup r op h)

/-- Claim C5 amended: across every sequence of join, leave, kick,
disconnect, start-game, rematch, select-stat (and timer-driven new-round)
operations from a freshly created room, the winners list never contains a
duplicate session-id.  The subset half of the original claim fails: removal
operations never prune winners, so a departed winner's id stays in the
list (see the counterexample). -/
theorem winners_nodup_reachable (settings : SettingsUpdate)
    (socketId playerName : String) (ops : List Op) :
    ((applyOps (createdRoom settings socketId playerName) ops).winners).Nodup := by
  refine applyOps_winners_nodup ops _ ?_
  show ([] : List String).Nodup
  exact List.nodup_nil

def cardHi : Card :=
  { id := 2, name := "hi", sprite := "s", hp := 60,
    stats := { attack := 0, defense := 0, speed := 0 }, ctype := "t" }

def cardLo : Card :=
  { id := 3, name := "lo", sprite := "s", hp := 30,
    stats := { attack := 0, defense := 0, speed := 0 }, ctype := "t" }

def drawC5 : String → Card := fun pid => if pid = "A" then cardHi else cardLo

def roomC5 : GameRoom :=
  createdRoom { roundsToWin := some 1, maxWinners := some 1 } "A" "ali"

def opsC5 : List Op :=
  [.join [] "B" "bud", .startGame drawC5, .selectStat "A" "hp", .leave "A"]

/-- Counterexample to claim C5: A wins with roundsToWin 1 and then leaves;
the winners list still contains A while the roster no longer does, so
winners is not a subset of the roster keys. -/
theorem winners_subset_cex :
    (applyOps roomC5 opsC5).winners = ["A"] ∧
    "A" ∉ (applyOps roomC5 opsC5).players.map Prod.fst := by
  decide
